import Mathlib

set_option maxHeartbeats 1000000
set_option maxRecDepth 8000

/-!
Shallow embedding of the directory-tree comparison program
(src/main.py, src/tree_processor.py, src/lsh_signature.py) and
verification of the specification's claims about it.
-/

/-- Embedding of the `FileNode` class of src/main.py: a node carries `name`,
`is_dir`, `size`, the stored `content_hash` attribute (`None` until a file is
hashed; never set on directories by this program) and the ordered list of
`children`. -/
inductive FileNode where
  | mk (name : String) (is_dir : Bool) (size : Nat)
      (content_hash : Option String) (children : List FileNode)

def FileNode.name : FileNode → String
  | .mk n _ _ _ _ => n

def FileNode.is_dir : FileNode → Bool
  | .mk _ d _ _ _ => d

def FileNode.size : FileNode → Nat
  | .mk _ _ s _ _ => s

def FileNode.content_hash : FileNode → Option String
  | .mk _ _ _ h _ => h

def FileNode.children : FileNode → List FileNode
  | .mk _ _ _ _ cs => cs

/-- The node-identity tuple `(node.name, node.is_dir, node.size,
node.content_hash)` that `get_node_info` of src/main.py flattens trees into. -/
abbrev NodeInfo := String × Bool × Nat × Option String

/-- The head tuple contributed by one node to `get_node_info`. -/
def infoTuple (n : FileNode) : NodeInfo :=
  (n.name, n.is_dir, n.size, n.content_hash)

mutual

/-- Embedding of `get_node_info` (src/main.py): the node's own tuple followed
by the recursively flattened tuples of its children, in child order. -/
def get_node_info : FileNode → List NodeInfo
  | .mk nm d sz h cs => (nm, d, sz, h) :: get_node_info_list cs

/-- The `result.extend(get_node_info(child))` loop of `get_node_info`. -/
def get_node_info_list : List FileNode → List NodeInfo
  | [] => []
  | c :: cs => get_node_info c ++ get_node_info_list cs

end

/-- The Python `set(...)` of the flattened node tuples, as used by
`compare_trees`. -/
def infoSet (t : FileNode) : Finset NodeInfo :=
  (get_node_info t).toFinset

/-- Embedding of `compare_trees` (src/main.py): Jaccard similarity of the two
flattened node-identity sets (0 when the union is empty), plus one formatted
difference string per element outside the intersection.  Python iterates the
set `union - intersection` in unspecified order, so the difference entries are
embedded as a multiset (one entry per set element, order abstracted). -/
def compare_trees (tree1 tree2 : FileNode) : ℚ × Multiset String :=
  let info1 := infoSet tree1
  let info2 := infoSet tree2
  let intersection := info1 ∩ info2
  let union := info1 ∪ info2
  let similarity : ℚ := if union = ∅ then 0 else (intersection.card : ℚ) / (union.card : ℚ)
  let differences := (union \ intersection).val.map (fun item =>
    if item ∈ info1 then "Only in " ++ tree1.name ++ ": " ++ item.1
    else "Only in " ++ tree2.name ++ ": " ++ item.1)
  (similarity, differences)

/-! ### MD5 (the digest used by `hashlib.md5(...).hexdigest()` in src/main.py) -/

/-- UTF-8 encoding of one character, as a list of byte values. -/
def utf8Bytes (c : Char) : List Nat :=
  let n := c.toNat
  if n < 128 then [n]
  else if n < 2048 then [192 ||| (n >>> 6), 128 ||| (n &&& 63)]
  else if n < 65536 then
    [224 ||| (n >>> 12), 128 ||| ((n >>> 6) &&& 63), 128 ||| (n &&& 63)]
  else
    [240 ||| (n >>> 18), 128 ||| ((n >>> 12) &&& 63),
      128 ||| ((n >>> 6) &&& 63), 128 ||| (n &&& 63)]

/-- Python's `str.encode()`: the UTF-8 bytes of a string. -/
def strBytes (s : String) : List Nat :=
  (s.toList.map utf8Bytes).flatten

/-- The 64 MD5 round constants `K[i] = floor(abs(sin(i+1)) * 2^32)`. -/
def md5K : List Nat :=
  [0xd76aa478, 0xe8c7b756, 0x242070db, 0xc1bdceee,
   0xf57c0faf, 0x4787c62a, 0xa8304613, 0xfd469501,
   0x698098d8, 0x8b44f7af, 0xffff5bb1, 0x895cd7be,
   0x6b901122, 0xfd987193, 0xa679438e, 0x49b40821,
   0xf61e2562, 0xc040b340, 0x265e5a51, 0xe9b6c7aa,
   0xd62f105d, 0x02441453, 0xd8a1e681, 0xe7d3fbc8,
   0x21e1cde6, 0xc33707d6, 0xf4d50d87, 0x455a14ed,
   0xa9e3e905, 0xfcefa3f8, 0x676f02d9, 0x8d2a4c8a,
   0xfffa3942, 0x8771f681, 0x6d9d6122, 0xfde5380c,
   0xa4beea44, 0x4bdecfa9, 0xf6bb4b60, 0xbebfbc70,
   0x289b7ec6, 0xeaa127fa, 0xd4ef3085, 0x04881d05,
   0xd9d4d039, 0xe6db99e5, 0x1fa27cf8, 0xc4ac5665,
   0xf4292244, 0x432aff97, 0xab9423a7, 0xfc93a039,
   0x655b59c3, 0x8f0ccc92, 0xffeff47d, 0x85845dd1,
   0x6fa87e4f, 0xfe2ce6e0, 0xa3014314, 0x4e0811a1,
   0xf7537e82, 0xbd3af235, 0x2ad7d2bb, 0xeb86d391]

/-- The 64 MD5 per-round left-rotation amounts. -/
def md5S : List Nat :=
  [7, 12, 17, 22, 7, 12, 17, 22, 7, 12, 17, 22, 7, 12, 17, 22,
   5, 9, 14, 20, 5, 9, 14, 20, 5, 9, 14, 20, 5, 9, 14, 20,
   4, 11, 16, 23, 4, 11, 16, 23, 4, 11, 16, 23, 4, 11, 16, 23,
   6, 10, 15, 21, 6, 10, 15, 21, 6, 10, 15, 21, 6, 10, 15, 21]

/-- 2^32, the modulus of MD5's 32-bit arithmetic. -/
def w32 : Nat := 4294967296

/-- Addition modulo 2^32. -/
def add32 (x y : Nat) : Nat := (x + y) % w32

/-- Bitwise complement on 32 bits. -/
def not32 (x : Nat) : Nat := x ^^^ (w32 - 1)

/-- Left rotation of a 32-bit value by `s` bits. -/
def rotl32 (x s : Nat) : Nat := ((x <<< s) ||| (x >>> (32 - s))) % w32

/-- MD5's round function: F, G, H, I depending on the round index. -/
def md5F (i b c d : Nat) : Nat :=
  if i < 16 then (b &&& c) ||| (not32 b &&& d)
  else if i < 32 then (d &&& b) ||| (not32 d &&& c)
  else if i < 48 then b ^^^ c ^^^ d
  else c ^^^ (b ||| not32 d)

/-- MD5's message-word index schedule. -/
def md5G (i : Nat) : Nat :=
  if i < 16 then i
  else if i < 32 then (5 * i + 1) % 16
  else if i < 48 then (3 * i + 5) % 16
  else (7 * i) % 16

/-- Read a little-endian 32-bit word from a byte list at a given offset. -/
def word32At (bytes : List Nat) (off : Nat) : Nat :=
  bytes.getD off 0 + ((bytes.getD (off + 1) 0) <<< 8) +
    ((bytes.getD (off + 2) 0) <<< 16) + ((bytes.getD (off + 3) 0) <<< 24)

/-- One of the 64 MD5 rounds on the state `(a, b, c, d)`. -/
def md5Step (chunk : List Nat) (st : Nat × Nat × Nat × Nat) (i : Nat) :
    Nat × Nat × Nat × Nat :=
  let (a, b, c, d) := st
  let f := md5F i b c d
  let tmp := add32 (add32 (add32 a f) (md5K.getD i 0)) (word32At chunk (4 * md5G i))
  (d, add32 b (rotl32 tmp (md5S.getD i 0)), b, c)

/-- Process one 64-byte chunk, adding the round result into the state. -/
def md5Chunk (st : Nat × Nat × Nat × Nat) (chunk : List Nat) :
    Nat × Nat × Nat × Nat :=
  let (a, b, c, d) := (List.range 64).foldl (md5Step chunk) st
  (add32 st.1 a, add32 st.2.1 b, add32 st.2.2.1 c, add32 st.2.2.2 d)

/-- Split a byte list into 64-byte chunks.  The fuel argument of `go` starts
at the list length, which bounds the number of chunks, so the `0` case is
never reached; the fuel only makes the recursion structural. -/
def chunksOf64 (l : List Nat) : List (List Nat) :=
  go l.length l
where
  go : Nat → List Nat → List (List Nat)
  | _, [] => []
  | 0, _ :: _ => []
  | fuel + 1, x :: l => (x :: l).take 64 :: go fuel ((x :: l).drop 64)

/-- MD5 padding: a 0x80 byte, zeros to 56 mod 64, then the bit length as a
64-bit little-endian integer. -/
def md5Pad (msg : List Nat) : List Nat :=
  let bitLen := 8 * msg.length
  let zeros := (64 - (msg.length + 1) % 64 + 56) % 64
  msg ++ [128] ++ List.replicate zeros 0 ++
    (List.range 8).map (fun i => (bitLen >>> (8 * i)) % 256)

/-- The 16 MD5 digest bytes of a byte message. -/
def md5Bytes (msg : List Nat) : List Nat :=
  let st := (chunksOf64 (md5Pad msg)).foldl md5Chunk
    (0x67452301, 0xefcdab89, 0x98badcfe, 0x10325476)
  ([st.1, st.2.1, st.2.2.1, st.2.2.2].map
    (fun w => (List.range 4).map (fun i => (w >>> (8 * i)) % 256))).flatten

/-- Lowercase hexadecimal digit for a value below 16. -/
def hexDigit (n : Nat) : Char :=
  if n < 10 then Char.ofNat (48 + n) else Char.ofNat (87 + n)

/-- Two lowercase hex digits of one byte. -/
def byteToHex (b : Nat) : String :=
  String.mk [hexDigit (b / 16), hexDigit (b % 16)]

/-- Python's `hashlib.md5(s.encode()).hexdigest()`: the 32-character lowercase
hex rendering of the MD5 digest of a string's UTF-8 bytes. -/
def md5hex (s : String) : String :=
  String.join ((md5Bytes (strBytes s)).map byteToHex)

mutual

/-- Embedding of `FileNode.calculate_hash` (src/main.py): a file returns
`self.content_hash or ''` (the empty string when the hash is unset, which for
strings coincides with `Option.getD`); a directory returns the MD5 hex digest
of the concatenation, in child order, of its children's hashes. -/
def calculate_hash : FileNode → String
  | .mk _ d _ h cs => if d = false then h.getD "" else md5hex (String.join (hashList cs))

/-- The `[child.calculate_hash() for child in self.children]` comprehension. -/
def hashList : List FileNode → List String
  | [] => []
  | c :: cs => calculate_hash c :: hashList cs

end

/-- Modelled from the spec: the Jaccard ratio of two finite sets,
`|A ∩ B| / |A ∪ B|`, defined as 0 when the union is empty.  Stated from the
spec's words to compare against the similarity computed by the source's
`compare_trees`. -/
def jaccardSpec (A B : Finset NodeInfo) : ℚ :=
  if A ∪ B = ∅ then 0 else ((A ∩ B).card : ℚ) / ((A ∪ B).card : ℚ)

/-! ### difflib.SequenceMatcher, as called by `find_similar_files`
(`difflib.SequenceMatcher(None, a, b).ratio()` with `isjunk = None`, so the
junk set is empty; the autojunk "popular element" rule only applies when the
second sequence has at least 200 elements). -/

/-- The ascending list of indices at which a character occurs in `b`
(difflib's `b2j` table before junk handling). -/
def indicesOf (b : List Char) (c : Char) : List Nat :=
  (b.enum.filter (fun p => p.2 = c)).map (fun p => p.1)

/-- difflib's `b2j` lookup with the autojunk rule: when `len(b) >= 200`,
characters occurring more than `len(b) // 100 + 1` times are treated as
popular and their index list is dropped. -/
def b2jGet (b : List Char) (c : Char) : List Nat :=
  let idxs := indicesOf b c
  if 200 ≤ b.length ∧ b.length / 100 + 1 < idxs.length then [] else idxs

/-- The `for j in b2j.get(a[i], [])` loop body's index selection: skip
indices below `blo` (`continue`), stop at the first index reaching `bhi`
(`break`; the index lists are ascending). -/
def selectJs (blo bhi : Nat) : List Nat → List Nat
  | [] => []
  | j :: js =>
    if j < blo then selectJs blo bhi js
    else if bhi ≤ j then []
    else j :: selectJs blo bhi js

/-- The running best match of `find_longest_match`: `besti`, `bestj`,
`bestsize`. -/
structure FLMBest where
  besti : Nat
  bestj : Nat
  bestsize : Nat

/-- One row of `find_longest_match`'s dynamic program: fold over the selected
`j` indices, reading run lengths from the previous row `j2len` and recording
them in the new row; `j = 0` reads the empty default (`j2len.get(-1, 0)`). -/
def flmRow (j2len : Nat → Nat) (i : Nat) (js : List Nat) (st : FLMBest) :
    (Nat → Nat) × FLMBest :=
  js.foldl (fun (p : (Nat → Nat) × FLMBest) j =>
      let k := (if j = 0 then 0 else j2len (j - 1)) + 1
      let row := fun x => if x = j then k else p.1 x
      let st := if p.2.bestsize < k then FLMBest.mk (i + 1 - k) (j + 1 - k) k else p.2
      (row, st))
    (fun _ => 0, st)

/-- The outer `for i in range(alo, ahi)` loop of `find_longest_match`. -/
def flmScan (a b : List Char) (blo bhi : Nat) :
    List Nat → (Nat → Nat) → FLMBest → FLMBest
  | [], _, st => st
  | i :: is, j2len, st =>
    let (row, st) := flmRow j2len i (selectJs blo bhi (b2jGet b (a.getD i ' '))) st
    flmScan a b blo bhi is row st

/-- The body of the first `while` pair of `find_longest_match`: extend the
best match to the left over equal characters (the junk set is empty since
`isjunk` is `None`).  The fuel argument tracks `besti` exactly — both drop by
one per iteration — so when the fuel runs out `besti` is 0 and the loop guard
`besti > alo` fails anyway; the fuel only makes the recursion structural. -/
def extendLeftGo (a b : List Char) (alo blo : Nat) :
    Nat → Nat → Nat → Nat → Nat × Nat × Nat
  | 0, besti, bestj, bestsize => (besti, bestj, bestsize)
  | fuel + 1, besti, bestj, bestsize =>
    if alo < besti ∧ blo < bestj ∧
        a.getD (besti - 1) ' ' = b.getD (bestj - 1) ' ' then
      extendLeftGo a b alo blo fuel (besti - 1) (bestj - 1) (bestsize + 1)
    else (besti, bestj, bestsize)

/-- The first extension `while` loop, started with fuel `besti`. -/
def extendLeft (a b : List Char) (alo blo : Nat) (besti bestj bestsize : Nat) :
    Nat × Nat × Nat :=
  extendLeftGo a b alo blo besti besti bestj bestsize

/-- The body of the second `while` pair of `find_longest_match`: extend the
best match to the right over equal characters; returns the final `bestsize`.
The fuel argument tracks `ahi - (besti + bestsize)` — it drops by one per
iteration while `bestsize` grows — so when the fuel runs out the loop guard
`besti + bestsize < ahi` fails anyway. -/
def extendRightGo (a b : List Char) (ahi bhi besti bestj : Nat) :
    Nat → Nat → Nat
  | 0, bestsize => bestsize
  | fuel + 1, bestsize =>
    if besti + bestsize < ahi ∧ bestj + bestsize < bhi ∧
        a.getD (besti + bestsize) ' ' = b.getD (bestj + bestsize) ' ' then
      extendRightGo a b ahi bhi besti bestj fuel (bestsize + 1)
    else bestsize

/-- The second extension `while` loop, started with the exact remaining
room `ahi - (besti + bestsize)` as fuel. -/
def extendRight (a b : List Char) (ahi bhi : Nat) (besti bestj bestsize : Nat) :
    Nat :=
  extendRightGo a b ahi bhi besti bestj (ahi - (besti + bestsize)) bestsize

/-- difflib's `find_longest_match(alo, ahi, blo, bhi)` on sequences `a`, `b`
with an empty junk set (the trailing junk-extension loops are no-ops). -/
def find_longest_match (a b : List Char) (alo ahi blo bhi : Nat) :
    Nat × Nat × Nat :=
  let st := flmScan a b blo bhi (List.range' alo (ahi - alo))
    (fun _ => 0) (FLMBest.mk alo blo 0)
  let (bi, bj, bs) := extendLeft a b alo blo st.besti st.bestj st.bestsize
  (bi, bj, extendRight a b ahi bhi bi bj bs)

/-- difflib's `get_matching_blocks` queue loop, producing the raw list of
`(i, j, size)` blocks.  The queue is LIFO (`list.pop()`); a popped region of
size `s` pushes regions of total size at most `s - 2`, so `la + lb + 1` pops
always suffice and the fuel never runs out for the top-level call.  The final
sorting, merging of adjacent blocks and the zero-size sentinel of the source
are omitted here: they do not change the total matched size that `ratio`
sums. -/
def matchingBlocks (a b : List Char) :
    Nat → List (Nat × Nat × Nat × Nat) → List (Nat × Nat × Nat)
  | 0, _ => []
  | _, [] => []
  | fuel + 1, (alo, ahi, blo, bhi) :: queue =>
    let (i, j, k) := find_longest_match a b alo ahi blo bhi
    if k ≠ 0 then
      let q1 := if alo < i ∧ blo < j then [(alo, i, blo, j)] else []
      let q2 := if i + k < ahi ∧ j + k < bhi then [(i + k, ahi, j + k, bhi)] else []
      (i, j, k) :: matchingBlocks a b fuel (q2 ++ q1 ++ queue)
    else matchingBlocks a b fuel queue

/-- difflib's `ratio()`: `2 * matches / (len(a) + len(b))`, and 1.0 when both
sequences are empty (`_calculate_ratio`). -/
def ratioOfLists (a b : List Char) : ℚ :=
  let blocks := matchingBlocks a b (a.length + b.length + 1)
    [(0, a.length, 0, b.length)]
  let matchTotal : Nat := blocks.foldl (fun s t => s + t.2.2) 0
  if a.length + b.length = 0 then 1
  else 2 * (matchTotal : ℚ) / ((a.length : ℚ) + (b.length : ℚ))

/-- `difflib.SequenceMatcher(None, a, b).ratio()` on two strings. -/
def seqMatchScore (a b : String) : ℚ :=
  ratioOfLists a.toList b.toList

/-- Embedding of `find_similar_files` (src/main.py): over all pairs of
File-kind entries (one from each flattened tree) with differing names, report
`(name1, name2, score)` when the SequenceMatcher ratio of the two
`content_hash` strings exceeds 0.8.  A file's `content_hash` is always set by
the scanners in src/main.py; Python would raise `TypeError` on a `None` hash,
so the embedding is faithful on trees whose files all carry a hash. -/
def find_similar_files (tree1 tree2 : FileNode) : List (String × String × ℚ) :=
  let files1 := (get_node_info tree1).filter (fun n => !n.2.1)
  let files2 := (get_node_info tree2).filter (fun n => !n.2.1)
  files1.flatMap (fun file1 => files2.filterMap (fun file2 =>
    if file1.1 ≠ file2.1 then
      let similarity := seqMatchScore (file1.2.2.2.getD "") (file2.2.2.2.getD "")
      if similarity > (0.8 : ℚ) then some (file1.1, file2.1, similarity) else none
    else none))

/-! ### src/lsh_signature.py and src/tree_processor.py -/

/-- The observable state of a datasketch `MinHash` accumulator (an external
library): its `num_perm` parameter and the byte strings fed to `update`, in
order.  The stored hash values are a deterministic function of these. -/
structure MinHash where
  num_perm : Nat
  updates : List (List Nat)

/-- `minhash.update(bytes)`. -/
def MinHash.update (m : MinHash) (bs : List Nat) : MinHash :=
  MinHash.mk m.num_perm (m.updates ++ [bs])

/-- Embedding of `compute_node_signature` (src/lsh_signature.py): create a
`MinHash(num_perm=num_perm)`, update it with the UTF-8 bytes of the node's
name and then of each child's name.  The function performs no validation of
`num_perm`. -/
def compute_node_signature (node : FileNode) (num_perm : Nat) : MinHash :=
  node.children.foldl (fun m c => m.update (strBytes c.name))
    ((MinHash.mk num_perm []).update (strBytes node.name))

/-- The Python error raised by reading a never-assigned attribute, next to the
spec's `ConfigError` (which appears nowhere in the source). -/
inductive PyErr where
  | attributeError
  | configError
deriving DecidableEq

/-- A node of a well-formed tree is identified by its path of child indices
from the root (standing in for Python object identity). -/
abbrev TreePath := List Nat

/-- Read the dynamic `depth` attribute of the node at a path: `none` when it
was never assigned (Python raises `AttributeError` on the read). -/
def lookupDepth (ds : List (TreePath × Nat)) (p : TreePath) : Option Nat :=
  (ds.find? (fun e => e.1 = p)).map (fun e => e.2)

/-- The `for child in node.children: stack.append((child, node))` pushes:
each child paired with its own path and its parent's path. -/
def childEntries : List FileNode → Nat → TreePath →
    List (FileNode × TreePath × Option TreePath)
  | [], _, _ => []
  | c :: cs, i, p => (c, p ++ [i], some p) :: childEntries cs (i + 1) p

mutual

/-- Number of nodes of a tree (termination measure for the stack loops). -/
def FileNode.tsize : FileNode → Nat
  | .mk _ _ _ _ cs => 1 + tsizeList cs

/-- Total number of nodes of a list of trees. -/
def tsizeList : List FileNode → Nat
  | [] => 0
  | c :: cs => FileNode.tsize c + tsizeList cs

end

theorem tsize_eq (n : FileNode) : n.tsize = 1 + tsizeList n.children := by
  cases n; rfl

theorem tsizeList_append (l1 l2 : List FileNode) :
    tsizeList (l1 ++ l2) = tsizeList l1 + tsizeList l2 := by
  induction l1 with
  | nil => simp [tsizeList]
  | cons c cs ih => simp [tsizeList, ih]; omega

theorem tsizeList_reverse (l : List FileNode) :
    tsizeList l.reverse = tsizeList l := by
  induction l with
  | nil => rfl
  | cons c cs ih => simp [tsizeList, List.reverse_cons, tsizeList_append, ih]; omega

/-- Total tree size of the nodes on a metrics stack. -/
def stackMeasure : List (FileNode × TreePath × Option TreePath) → Nat
  | [] => 0
  | e :: es => e.1.tsize + stackMeasure es

theorem stackMeasure_append (l1 l2 : List (FileNode × TreePath × Option TreePath)) :
    stackMeasure (l1 ++ l2) = stackMeasure l1 + stackMeasure l2 := by
  induction l1 with
  | nil => simp [stackMeasure]
  | cons e es ih => simp [stackMeasure, ih]; omega

theorem stackMeasure_reverse (l : List (FileNode × TreePath × Option TreePath)) :
    stackMeasure l.reverse = stackMeasure l := by
  induction l with
  | nil => rfl
  | cons e es ih => simp [stackMeasure, List.reverse_cons, stackMeasure_append, ih]; omega

theorem stackMeasure_childEntries (cs : List FileNode) (i : Nat) (p : TreePath) :
    stackMeasure (childEntries cs i p) = tsizeList cs := by
  induction cs generalizing i with
  | nil => rfl
  | cons c cs ih => simp [childEntries, stackMeasure, tsizeList, ih]

/-- The first `while stack` loop of `process_tree` (src/tree_processor.py).
It pops `(node, parent)`; when the node has a parent it assigns
`node.depth = parent.depth + 1`; it then reads `node.depth` for the running
`max_depth` — an `AttributeError` when that attribute was never assigned,
which is the case for the root since `FileNode.__init__` sets no `depth` —
updates `max_branching_factor`, and pushes the children.  The Python list is
popped from its end, so the head of the embedded stack is the most recently
pushed entry. -/
def metricsLoop : List (FileNode × TreePath × Option TreePath) →
    List (TreePath × Nat) → Nat → Nat →
    Except PyErr (List (TreePath × Nat) × Nat × Nat)
  | [], ds, md, mb => .ok (ds, md, mb)
  | (.mk _ _ _ _ cs, path, parentOpt) :: stack, ds, md, mb =>
    let dsAfter := match parentOpt with
      | some pp => (lookupDepth ds pp).map (fun pd => (path, pd + 1) :: ds)
      | none => some ds
    match dsAfter with
    | none => .error .attributeError
    | some ds1 =>
      match lookupDepth ds1 path with
      | none => .error .attributeError
      | some nd =>
        metricsLoop ((childEntries cs 0 path).reverse ++ stack) ds1
          (max md nd) (max mb cs.length)
termination_by st _ _ _ => stackMeasure st
decreasing_by
  simp [stackMeasure, stackMeasure_append, stackMeasure_reverse,
    stackMeasure_childEntries, FileNode.tsize]

/-- Embedding of `traverse_tree` (src/tree_processor.py): the stack-based
generator; `stack.pop()` after `stack.extend(node.children)` yields the
children in reverse order. -/
def traverse_tree : List FileNode → List FileNode
  | [] => []
  | .mk nm d sz h cs :: stack =>
    FileNode.mk nm d sz h cs :: traverse_tree (cs.reverse ++ stack)
termination_by l => tsizeList l
decreasing_by
  simp [tsizeList, tsizeList_append, tsizeList_reverse, FileNode.tsize]

/-- The outcome of `process_tree`: the `depth` attributes assigned by the
metrics loop, the two maxima stored on the root, and the
`(weight, signature)` pair assigned to each node, in traversal order, by the
second loop. -/
structure ProcessResult where
  depths : List (TreePath × Nat)
  max_depth : Nat
  max_branching_factor : Nat
  annots : List (ℚ × MinHash)

/-- Embedding of `process_tree` (src/tree_processor.py).  `wf` stands for the
external `calculate_dynamic_weight` capability imported from
`weight_calculator`, a module that is not part of the repository; the spec
gives it the pure signature `weight(node, root) -> float`.  The metrics loop
runs first; only when it completes does the weight/signature loop run, and no
validation of `num_perm` is performed anywhere. -/
def process_tree (root : FileNode) (num_perm : Nat)
    (wf : FileNode → FileNode → ℚ) : Except PyErr ProcessResult :=
  match metricsLoop [(root, [], none)] [] 0 0 with
  | .error e => .error e
  | .ok (ds, md, mb) =>
    .ok (ProcessResult.mk ds md mb
      ((traverse_tree [root]).map
        (fun n => (wf n root, compute_node_signature n num_perm))))

/-! ### Helper lemmas -/

theorem string_foldl_append (l : List String) :
    ∀ (a b : String), l.foldl (fun r s => r ++ s) (a ++ b) =
      a ++ l.foldl (fun r s => r ++ s) b := by
  induction l with
  | nil => intro a b; rfl
  | cons c cs ih =>
    intro a b
    show cs.foldl (fun r s => r ++ s) ((a ++ b) ++ c) = _
    rw [String.append_assoc, ih a (b ++ c)]
    rfl

theorem join_cons (s : String) (l : List String) :
    String.join (s :: l) = s ++ String.join l := by
  have h := string_foldl_append l s ""
  rw [String.append_empty] at h
  show l.foldl (fun r s => r ++ s) ("" ++ s) = s ++ String.join l
  rw [String.empty_append]
  exact h

theorem join_append (l1 l2 : List String) :
    String.join (l1 ++ l2) = String.join l1 ++ String.join l2 := by
  induction l1 with
  | nil =>
    rw [List.nil_append, show String.join ([] : List String) = "" from rfl,
      String.empty_append]
  | cons s ss ih =>
    rw [List.cons_append, join_cons, join_cons, ih, String.append_assoc]

theorem hashList_append (l1 l2 : List FileNode) :
    hashList (l1 ++ l2) = hashList l1 ++ hashList l2 := by
  induction l1 with
  | nil => rfl
  | cons c cs ih => simp [hashList, ih]

theorem get_node_info_list_append (l1 l2 : List FileNode) :
    get_node_info_list (l1 ++ l2) =
      get_node_info_list l1 ++ get_node_info_list l2 := by
  induction l1 with
  | nil => rfl
  | cons c cs ih => simp [get_node_info_list, ih]

/-! ### Example trees -/

/-- Tree A of the spec's end-to-end scenario:
root/[fileX(10, "abc"), dirY/[fileZ(5, "def")]]. -/
def specTreeA : FileNode := .mk "root" true 0 none
  [.mk "fileX" false 10 (some "abc") [],
   .mk "dirY" true 0 none [.mk "fileZ" false 5 (some "def") []]]

/-- Tree B of the scenario: identical except fileX is renamed to fileW. -/
def specTreeB : FileNode := .mk "root" true 0 none
  [.mk "fileW" false 10 (some "abc") [],
   .mk "dirY" true 0 none [.mk "fileZ" false 5 (some "def") []]]

/-- A well-formed two-node tree, as built by `FileNode.__init__` (no `depth`
attribute anywhere). -/
def c1Tree : FileNode := .mk "root" true 0 none
  [.mk "child" false 1 (some "h") []]

/-- A well-formed two-node tree for exercising `process_tree` with
`num_perm = 0`. -/
def c7Tree : FileNode := .mk "r" true 0 none [.mk "f" false 3 (some "h") []]

/-- A directory whose single file has content hash "x". -/
def c2TreeX : FileNode := .mk "d" true 0 none [.mk "a" false 1 (some "x") []]

/-- A directory with the same name and size whose descendant content differs
(file hash "y"). -/
def c2TreeY : FileNode := .mk "d" true 0 none [.mk "a" false 1 (some "y") []]

/-! ### Claim theorems -/

/-- C1 (code bug): `process_tree` cannot complete on a well-formed repository
tree.  `FileNode.__init__` sets no `depth` attribute and the metrics loop
assigns `depth` only to nodes that have a parent, so the loop's read of
`node.depth` for the root raises `AttributeError` — the claim's guaranteed
completion with root depth 0 never happens.  Evaluated here on a two-node
tree with the default `num_perm = 128`. -/
theorem c1_process_tree_fails_on_well_formed_tree :
    process_tree c1Tree 128 (fun _ _ => 0) = .error .attributeError := by
  simp [process_tree, c1Tree, metricsLoop, lookupDepth]

/-- C3: for every pair of trees the similarity returned by `compare_trees` is
the Jaccard ratio |infoA ∩ infoB| / |infoA ∪ infoB| of the flattened
node-identity sets, 0 when the union is empty, and therefore always lies in
[0, 1]. -/
theorem c3_similarity_is_jaccard_and_bounded (t1 t2 : FileNode) :
    (compare_trees t1 t2).1 = jaccardSpec (infoSet t1) (infoSet t2) ∧
    0 ≤ (compare_trees t1 t2).1 ∧ (compare_trees t1 t2).1 ≤ 1 := by
  have h1 : (compare_trees t1 t2).1 = jaccardSpec (infoSet t1) (infoSet t2) := rfl
  refine ⟨h1, ?_, ?_⟩
  · rw [h1]; unfold jaccardSpec; split
    · exact le_refl 0
    · positivity
  · rw [h1]; unfold jaccardSpec; split
    · exact zero_le_one
    · rename_i hne
      have hpos : (0 : ℚ) < ((infoSet t1 ∪ infoSet t2).card : ℚ) := by
        exact_mod_cast Finset.card_pos.mpr (Finset.nonempty_iff_ne_empty.mpr hne)
      rw [div_le_one hpos]
      exact_mod_cast Finset.card_le_card
        (Finset.inter_subset_left.trans Finset.subset_union_left)

/-- C4: on the spec's end-to-end scenario, `compare_trees` returns similarity
3/5 < 1 with exactly two difference entries — one for fileX (tagged with tree
A's root name) and one for fileW (tagged with tree B's root name; both roots
are named "root") — and `find_similar_files` returns exactly
[("fileX", "fileW", 1.0)]. -/
theorem c4_end_to_end_scenario :
    (compare_trees specTreeA specTreeB).1 = 3 / 5 ∧
    (compare_trees specTreeA specTreeB).1 < 1 ∧
    Multiset.card (compare_trees specTreeA specTreeB).2 = 2 ∧
    "Only in root: fileX" ∈ (compare_trees specTreeA specTreeB).2 ∧
    "Only in root: fileW" ∈ (compare_trees specTreeA specTreeB).2 ∧
    find_similar_files specTreeA specTreeB = [("fileX", "fileW", 1)] := by
  refine ⟨?_, ?_, by decide, by decide, by decide, ?_⟩
  · with_unfolding_all decide
  · with_unfolding_all decide
  · with_unfolding_all decide

/-- C7 counterexample: calling `process_tree` with `num_perm = 0` does not
fail with `ConfigError` — the code contains no configuration validation; on a
repository tree it fails with `AttributeError` from the root-depth read,
which is inside the metrics traversal, so no validation happened before the
traversal began. -/
theorem c7_counterexample :
    process_tree c7Tree 0 (fun _ _ => 0) = .error .attributeError ∧
    PyErr.attributeError ≠ PyErr.configError :=
  ⟨by simp [process_tree, c7Tree, metricsLoop, lookupDepth], by decide⟩

/-- C7 amended: `process_tree` performs no `num_perm` validation at all:
`num_perm` is only forwarded to the MinHash constructor in the second loop.
On the repository's `FileNode` trees every call — whatever `num_perm` and
whatever weight capability — fails with `AttributeError` at the root-depth
read of the metrics loop, before any weight or signature is assigned. -/
theorem c7_amended_no_config_validation (t : FileNode) (num_perm : Nat)
    (wf : FileNode → FileNode → ℚ) :
    process_tree t num_perm wf = .error .attributeError := by
  cases t with
  | mk nm d sz h cs => simp [process_tree, metricsLoop, lookupDepth]

/-- C2 counterexample: `c2TreeX` and `c2TreeY` are directories with equal
name and size but different descendant contents — their recursive
`calculate_hash` fingerprints differ — yet their identity tuples coincide
and they are one common element of the two flattened sets (so the similarity
is not 0, as it would be were they distinct elements): `get_node_info`
records a directory's stored `content_hash` (None), never `calculate_hash`. -/
theorem c2_counterexample :
    calculate_hash c2TreeX ≠ calculate_hash c2TreeY ∧
    infoTuple c2TreeX = infoTuple c2TreeY ∧
    infoTuple c2TreeX ∈ infoSet c2TreeX ∩ infoSet c2TreeY ∧
    (compare_trees c2TreeX c2TreeY).1 ≠ 0 := by
  refine ⟨by decide, by decide, by decide, ?_⟩
  with_unfolding_all decide

/-- C2 amended: in `compare_trees` two nodes are equal elements iff their
stored tuples (name, is_dir, size, content_hash attribute) match exactly;
the flattening uses the stored attribute — None for directories — so two
directories with equal name and size are the same element of the flattened
sets regardless of descendant contents. -/
theorem c2_amended_identity_uses_stored_hash :
    (∀ (nm : String) (d : Bool) (sz : Nat) (h : Option String)
      (cs : List FileNode),
      get_node_info (FileNode.mk nm d sz h cs) =
        (nm, d, sz, h) :: get_node_info_list cs) ∧
    (∀ (nm : String) (sz : Nat) (cs1 cs2 : List FileNode),
      infoTuple (FileNode.mk nm true sz none cs1) =
        infoTuple (FileNode.mk nm true sz none cs2) ∧
      infoTuple (FileNode.mk nm true sz none cs1) ∈
        infoSet (FileNode.mk nm true sz none cs1) ∩
          infoSet (FileNode.mk nm true sz none cs2)) := by
  refine ⟨fun nm d sz h cs => rfl, fun nm sz cs1 cs2 => ⟨rfl, ?_⟩⟩
  rw [Finset.mem_inter]
  constructor <;>
  · simp [infoSet, get_node_info, infoTuple, FileNode.name, FileNode.is_dir,
      FileNode.size, FileNode.content_hash]

/-- C8: a File node whose `content_hash` is unset fingerprints to the empty
string (`self.content_hash or ''`) rather than raising, and a directory
containing such a file hashes the child-order concatenation in which that
file contributes the empty string. -/
theorem c8_unset_hash_empty_fingerprint (n : FileNode)
    (hfile : n.is_dir = false) (hnone : n.content_hash = none) :
    calculate_hash n = "" ∧
    ∀ (nm : String) (sz : Nat) (h : Option String)
      (pre post : List FileNode),
      calculate_hash (FileNode.mk nm true sz h (pre ++ n :: post)) =
        md5hex (String.join (hashList pre ++ "" :: hashList post)) := by
  have hn : calculate_hash n = "" := by
    cases n with
    | mk nm d sz h cs =>
      simp [FileNode.is_dir] at hfile
      simp [FileNode.content_hash] at hnone
      simp [calculate_hash, hfile, hnone]
  refine ⟨hn, ?_⟩
  intro nm sz h pre post
  simp [calculate_hash, hashList_append, hashList, hn]

/-- A file with no content hash, used to instantiate C8. -/
def c8File : FileNode := .mk "orphan" false 7 none []

/-- Witness for C8: the concrete unhashed file fingerprints to "" and its
parent directory hashes the concatenation with an empty-string slot. -/
theorem c8_unset_hash_empty_fingerprint_witness :
    calculate_hash c8File = "" ∧
    calculate_hash (FileNode.mk "d" true 0 none ([] ++ c8File :: [])) =
      md5hex (String.join (hashList [] ++ "" :: hashList [])) :=
  ⟨(c8_unset_hash_empty_fingerprint c8File rfl rfl).1,
   (c8_unset_hash_empty_fingerprint c8File rfl rfl).2 "d" 0 none [] []⟩

/-- C10: every difference entry returned by `compare_trees` is the formatted
string "Only in {root name}: {entry name}" for some element of the symmetric
difference (tagged with tree 1's root name exactly when tree 1 contains it),
and when the two roots share a name every entry carries that single owner
label, so A-side and B-side entries are indistinguishable. -/
theorem c10_difference_entry_format (t1 t2 : FileNode) (d : String)
    (hd : d ∈ (compare_trees t1 t2).2) :
    (∃ item ∈ (infoSet t1 ∪ infoSet t2) \ (infoSet t1 ∩ infoSet t2),
      d = (if item ∈ infoSet t1 then "Only in " ++ t1.name ++ ": " ++ item.1
        else "Only in " ++ t2.name ++ ": " ++ item.1)) ∧
    (t1.name = t2.name → ∃ nm, d = "Only in " ++ t1.name ++ ": " ++ nm) := by
  have hd2 : d ∈ Multiset.map
      (fun item => if item ∈ infoSet t1
        then "Only in " ++ t1.name ++ ": " ++ item.1
        else "Only in " ++ t2.name ++ ": " ++ item.1)
      ((infoSet t1 ∪ infoSet t2) \ (infoSet t1 ∩ infoSet t2)).val := hd
  obtain ⟨item, hmem, heq⟩ := Multiset.mem_map.mp hd2
  have hmem2 : item ∈ (infoSet t1 ∪ infoSet t2) \ (infoSet t1 ∩ infoSet t2) :=
    hmem
  constructor
  · exact ⟨item, hmem2, heq.symm⟩
  · intro hname
    by_cases hc : item ∈ infoSet t1
    · exact ⟨item.1, by rw [← heq, if_pos hc]⟩
    · exact ⟨item.1, by rw [← heq, if_neg hc, hname]⟩

/-- Witness for C10 at the scenario trees, whose roots are both named
"root". -/
theorem c10_difference_entry_format_witness :
    ∃ nm, "Only in root: fileX" =
      "Only in " ++ specTreeA.name ++ ": " ++ nm :=
  (c10_difference_entry_format specTreeA specTreeB "Only in root: fileX"
    (by decide)).2 rfl

/-- Unfolding of `hashList` on a cons cell. -/
theorem hashList_cons (c : FileNode) (l : List FileNode) :
    hashList (c :: l) = calculate_hash c :: hashList l := rfl

/-- A file with content hash "x" (fingerprint "x"). -/
def c6FileX : FileNode := .mk "a" false 1 (some "x") []

/-- A file with content hash "y" (fingerprint "y"). -/
def c6FileY : FileNode := .mk "b" false 2 (some "y") []

/-- A file with no content hash (fingerprint "", length 0). -/
def c6FileNone : FileNode := .mk "b" false 2 none []

/-- The directory d/[a("x"), b(unset)]. -/
def c6DirA : FileNode := .mk "d" true 0 none [c6FileX, c6FileNone]

/-- The same directory with its two children swapped. -/
def c6DirB : FileNode := .mk "d" true 0 none [c6FileNone, c6FileX]

/-- C6 counterexample: the two children of `c6DirA` have unequal fingerprints
("x" and "", since an unhashed file fingerprints to the empty string), yet
swapping them leaves `calculate_hash` unchanged — both child-fingerprint
concatenations are the string "x", so the directory digest is identical. -/
theorem c6_counterexample :
    c6DirA.children = [c6FileX, c6FileNone] ∧
    c6DirB.children = [c6FileNone, c6FileX] ∧
    calculate_hash c6FileX ≠ calculate_hash c6FileNone ∧
    calculate_hash c6DirA = calculate_hash c6DirB :=
  ⟨rfl, rfl, by decide, by decide⟩

/-- C6 amended: a directory's fingerprint is the md5 digest of the ordered
concatenation of its children's fingerprints, so it is a function of that
ordered sequence; swapping two children whose fingerprints are unequal and of
equal length (as all 32-character md5 digests are) changes the digest input,
whereas fingerprints of unequal lengths (such as the empty fingerprint of an
unhashed file) can leave the concatenation — and hence the hash, which is md5
of that concatenation — unchanged. -/
theorem c6_amended_swap_changes_digest_input (nm : String) (sz : Nat)
    (h : Option String) (pre mid post : List FileNode) (c1 c2 : FileNode)
    (hlen : (calculate_hash c1).length = (calculate_hash c2).length)
    (hne : calculate_hash c1 ≠ calculate_hash c2) :
    (∀ cs : List FileNode, calculate_hash (FileNode.mk nm true sz h cs) =
      md5hex (String.join (hashList cs))) ∧
    String.join (hashList (pre ++ (c1 :: (mid ++ (c2 :: post))))) ≠
      String.join (hashList (pre ++ (c2 :: (mid ++ (c1 :: post))))) := by
  have e1 : ∀ (a b : FileNode),
      String.join (hashList (pre ++ (a :: (mid ++ (b :: post))))) =
        String.join (hashList pre) ++ (calculate_hash a ++
          (String.join (hashList mid) ++ (calculate_hash b ++
            String.join (hashList post)))) := by
    intro a b
    rw [hashList_append, hashList_cons, hashList_append, hashList_cons,
      join_append, join_cons, join_append, join_cons]
  constructor
  · intro cs; simp [calculate_hash]
  · intro hjoin
    apply hne
    rw [e1 c1 c2, e1 c2 c1] at hjoin
    have hdata := congrArg String.data hjoin
    simp only [String.data_append] at hdata
    have hdrop := List.append_cancel_left hdata
    have hlen2 : (calculate_hash c1).data.length =
        (calculate_hash c2).data.length := hlen
    exact String.ext (List.append_inj hdrop hlen2).1

/-- Witness for the amended C6 at two equal-length unequal fingerprints
("x" and "y"): swapping the two files changes the digest input. -/
theorem c6_amended_swap_changes_digest_input_witness :
    calculate_hash (FileNode.mk "d" true 0 none [c6FileX, c6FileY]) =
      md5hex (String.join (hashList [c6FileX, c6FileY])) ∧
    String.join (hashList ([] ++ (c6FileX :: ([] ++ (c6FileY :: []))))) ≠
      String.join (hashList ([] ++ (c6FileY :: ([] ++ (c6FileX :: []))))) := by
  have h := c6_amended_swap_changes_digest_input "d" 0 none [] [] []
    c6FileX c6FileY (by decide) (by decide)
  exact ⟨h.1 [c6FileX, c6FileY], h.2⟩

mutual

/-- Insert `c` as a new last child (`add_child` appends) of the node reached
by the child-index path `p`; an invalid path leaves the tree unchanged. -/
def insertAt : TreePath → FileNode → FileNode → FileNode
  | [], c, .mk nm d sz h cs => .mk nm d sz h (cs ++ [c])
  | i :: p, c, .mk nm d sz h cs => .mk nm d sz h (insertAtList i p c cs)

/-- Apply `insertAt p c` to the `i`-th element of a child list. -/
def insertAtList : Nat → TreePath → FileNode → List FileNode → List FileNode
  | _, _, _, [] => []
  | 0, p, c, x :: xs => insertAt p c x :: xs
  | i + 1, p, c, x :: xs => x :: insertAtList i p c xs

end

theorem insertAt_name (p : TreePath) (c t : FileNode) :
    (insertAt p c t).name = t.name := by
  cases p <;> cases t <;> rfl

theorem insertAt_infoSet (p : TreePath) :
    ∀ (c t : FileNode), infoSet t ⊆ infoSet (insertAt p c t) ∧
      infoSet (insertAt p c t) ⊆ infoSet t ∪ infoSet c := by
  induction p with
  | nil =>
    intro c t
    cases t with
    | mk nm d sz h cs =>
      have he : infoSet (insertAt [] c (FileNode.mk nm d sz h cs)) =
          infoSet (FileNode.mk nm d sz h cs) ∪ infoSet c := by
        simp [insertAt, infoSet, get_node_info, get_node_info_list_append,
          get_node_info_list, List.toFinset_append, Finset.insert_union]
      rw [he]
      exact ⟨Finset.subset_union_left, le_refl _⟩
  | cons i p ih =>
    intro c t
    cases t with
    | mk nm d sz h cs =>
      have hlist : ∀ (i : Nat) (cs : List FileNode),
          (get_node_info_list cs).toFinset ⊆
            (get_node_info_list (insertAtList i p c cs)).toFinset ∧
          (get_node_info_list (insertAtList i p c cs)).toFinset ⊆
            (get_node_info_list cs).toFinset ∪ infoSet c := by
        intro i cs
        induction cs generalizing i with
        | nil => simp [insertAtList]
        | cons x xs ihx =>
          cases i with
          | zero =>
            have hx := ih c x
            constructor
            · simp only [insertAtList, get_node_info_list, List.toFinset_append]
              exact Finset.union_subset_union hx.1 (le_refl _)
            · simp only [insertAtList, get_node_info_list, List.toFinset_append]
              intro y hy
              rcases Finset.mem_union.mp hy with h1 | h2
              · rcases Finset.mem_union.mp (hx.2 h1) with ha | hb
                · exact Finset.mem_union_left _ (Finset.mem_union_left _ ha)
                · exact Finset.mem_union_right _ hb
              · exact Finset.mem_union_left _ (Finset.mem_union_right _ h2)
          | succ i =>
            have hxs := ihx i
            constructor
            · simp only [insertAtList, get_node_info_list, List.toFinset_append]
              exact Finset.union_subset_union (le_refl _) hxs.1
            · simp only [insertAtList, get_node_info_list, List.toFinset_append]
              intro y hy
              rcases Finset.mem_union.mp hy with h1 | h2
              · exact Finset.mem_union_left _ (Finset.mem_union_left _ h1)
              · rcases Finset.mem_union.mp (hxs.2 h2) with ha | hb
                · exact Finset.mem_union_left _ (Finset.mem_union_right _ ha)
                · exact Finset.mem_union_right _ hb
      have hl := hlist i cs
      constructor
      · simp only [insertAt, infoSet, get_node_info, List.toFinset_cons]
        exact Finset.insert_subset_insert _ hl.1
      · simp only [insertAt, infoSet, get_node_info, List.toFinset_cons]
        intro y hy
        rcases Finset.mem_insert.mp hy with h1 | h2
        · exact Finset.mem_union_left _ (by rw [h1]; exact Finset.mem_insert_self _ _)
        · rcases Finset.mem_union.mp (hl.2 h2) with ha | hb
          · exact Finset.mem_union_left _ (Finset.mem_insert_of_mem ha)
          · exact Finset.mem_union_right _ hb

/-- `compare_trees` only looks at a tree through its root name and its
flattened node-identity set. -/
theorem compare_trees_ext {t t' : FileNode} (u : FileNode)
    (hn : t.name = t'.name) (hs : infoSet t = infoSet t') :
    compare_trees t u = compare_trees t' u ∧
    compare_trees u t = compare_trees u t' := by
  unfold compare_trees
  rw [hn, hs]
  exact ⟨rfl, rfl⟩

/-- C9: inserting anywhere in a tree an extra childless node whose identity
tuple (name, is_dir, size, content_hash) already occurs in that tree changes
neither the similarity nor the differences returned by `compare_trees`, in
either argument position — the comparison has set semantics, so multiplicity
never matters. -/
theorem c9_duplicate_node_no_effect (p : TreePath) (c t u : FileNode)
    (hleaf : c.children = []) (hdup : infoTuple c ∈ infoSet t) :
    compare_trees (insertAt p c t) u = compare_trees t u ∧
    compare_trees u (insertAt p c t) = compare_trees u t := by
  have hcset : infoSet c = {infoTuple c} := by
    cases c with
    | mk nm d sz h cs =>
      simp only [FileNode.children] at hleaf
      subst hleaf
      simp [infoSet, get_node_info, get_node_info_list, infoTuple,
        FileNode.name, FileNode.is_dir, FileNode.size, FileNode.content_hash]
  have hsub : infoSet c ⊆ infoSet t := by
    rw [hcset]
    exact Finset.singleton_subset_iff.mpr hdup
  have hp := insertAt_infoSet p c t
  have hset : infoSet (insertAt p c t) = infoSet t :=
    Finset.Subset.antisymm
      (hp.2.trans (by rw [Finset.union_eq_left.mpr hsub]))
      hp.1
  exact compare_trees_ext u (insertAt_name p c t) hset

/-- A small tree holding one file node. -/
def c9Base : FileNode := .mk "root" true 0 none [.mk "a" false 1 (some "x") []]

/-- A childless duplicate of the file node of `c9Base`. -/
def c9Dup : FileNode := .mk "a" false 1 (some "x") []

/-- A second tree to compare against. -/
def c9Other : FileNode := .mk "other" true 0 none
  [.mk "b" false 2 (some "y") []]

/-- Witness for C9: appending the duplicate under the root leaves both
comparison directions unchanged. -/
theorem c9_duplicate_node_no_effect_witness :
    compare_trees (insertAt [] c9Dup c9Base) c9Other =
      compare_trees c9Base c9Other ∧
    compare_trees c9Other (insertAt [] c9Dup c9Base) =
      compare_trees c9Other c9Base :=
  c9_duplicate_node_no_effect [] c9Dup c9Base c9Other rfl (by decide)

/-- Every File-kind entry of a tree carries a content hash (as guaranteed for
trees built by the scanners of src/main.py; Python's SequenceMatcher would
raise `TypeError` on a `None` hash). -/
def allFilesHashed (t : FileNode) : Prop :=
  ∀ e ∈ get_node_info t, e.2.1 = false → e.2.2.2 ≠ none

instance (t : FileNode) : Decidable (allFilesHashed t) := by
  unfold allFilesHashed; infer_instance

/-- C5: on trees whose files all carry hashes, `find_similar_files` contains
exactly the triples (a, b, s) for which some File entry of tree 1 named `a`
with fingerprint h1 and some File entry of tree 2 named `b` with fingerprint
h2 satisfy a ≠ b, s is the SequenceMatcher ratio of h1 and h2, and s exceeds
the 0.8 threshold; in particular a same-named pair never appears, whatever
the fingerprints. -/
theorem c5_find_similar_characterization (t1 t2 : FileNode)
    (hall1 : allFilesHashed t1) (hall2 : allFilesHashed t2) :
    (∀ (a b : String) (s : ℚ),
      (a, b, s) ∈ find_similar_files t1 t2 ↔
        ∃ f1 ∈ (get_node_info t1).filter (fun n => !n.2.1),
        ∃ f2 ∈ (get_node_info t2).filter (fun n => !n.2.1),
        ∃ hs1 hs2, f1.2.2.2 = some hs1 ∧ f2.2.2.2 = some hs2 ∧
          f1.1 = a ∧ f2.1 = b ∧ a ≠ b ∧
          s = seqMatchScore hs1 hs2 ∧ (0.8 : ℚ) < s) ∧
    (∀ (nm : String) (s : ℚ), (nm, nm, s) ∉ find_similar_files t1 t2) := by
  have hmain : ∀ (a b : String) (s : ℚ),
      (a, b, s) ∈ find_similar_files t1 t2 ↔
        ∃ f1 ∈ (get_node_info t1).filter (fun n => !n.2.1),
        ∃ f2 ∈ (get_node_info t2).filter (fun n => !n.2.1),
        ∃ hs1 hs2, f1.2.2.2 = some hs1 ∧ f2.2.2.2 = some hs2 ∧
          f1.1 = a ∧ f2.1 = b ∧ a ≠ b ∧
          s = seqMatchScore hs1 hs2 ∧ (0.8 : ℚ) < s := by
    intro a b s
    simp only [find_similar_files]
    rw [List.mem_flatMap]
    constructor
    · rintro ⟨f1, hf1, hmem⟩
      rw [List.mem_filterMap] at hmem
      obtain ⟨f2, hf2, hg⟩ := hmem
      have hfile1 : f1.2.1 = false := by
        have := (List.mem_filter.mp hf1).2
        simpa using this
      have hfile2 : f2.2.1 = false := by
        have := (List.mem_filter.mp hf2).2
        simpa using this
      obtain ⟨hs1, hhs1⟩ :=
        Option.ne_none_iff_exists'.mp
          (hall1 f1 (List.mem_filter.mp hf1).1 hfile1)
      obtain ⟨hs2, hhs2⟩ :=
        Option.ne_none_iff_exists'.mp
          (hall2 f2 (List.mem_filter.mp hf2).1 hfile2)
      split_ifs at hg with hname hsim
      · rw [Option.some.injEq] at hg
        obtain ⟨ha, hb, hsv⟩ : f1.1 = a ∧ f2.1 = b ∧
            seqMatchScore (f1.2.2.2.getD "") (f2.2.2.2.getD "") = s := by
          refine ⟨congrArg (fun x => x.1) hg, ?_, ?_⟩
          · exact congrArg (fun x => x.2.1) hg
          · exact congrArg (fun x => x.2.2) hg
        have hg1 : f1.2.2.2.getD "" = hs1 := by simp [hhs1]
        have hg2 : f2.2.2.2.getD "" = hs2 := by simp [hhs2]
        rw [hg1, hg2] at hsv hsim
        refine ⟨f1, hf1, f2, hf2, hs1, hs2, hhs1, hhs2, ha, hb, ?_, hsv.symm,
          hsv ▸ hsim⟩
        rw [← ha, ← hb]; exact hname
    · rintro ⟨f1, hf1, f2, hf2, hs1, hs2, hhs1, hhs2, ha, hb, hab, hsv, hthr⟩
      refine ⟨f1, hf1, ?_⟩
      rw [List.mem_filterMap]
      refine ⟨f2, hf2, ?_⟩
      have hname : f1.1 ≠ f2.1 := by rw [ha, hb]; exact hab
      rw [if_pos hname]
      have hscore : seqMatchScore (f1.2.2.2.getD "") (f2.2.2.2.getD "") =
          seqMatchScore hs1 hs2 := by
        rw [hhs1, hhs2]; simp
      rw [hscore, if_pos (by rw [← hsv]; exact hthr), ha, hb, ← hsv]
  refine ⟨hmain, ?_⟩
  intro nm s hmem
  obtain ⟨f1, hf1, f2, hf2, hs1, hs2, hhs1, hhs2, ha, hb, hab, hsv, hthr⟩ :=
    (hmain nm nm s).mp hmem
  exact hab rfl

/-- Witness for C5 at the scenario trees: the same-named pair
(fileZ, fileZ) never appears in the output even though both fingerprints are
"def" (score 1.0). -/
theorem c5_find_similar_characterization_witness :
    ("fileZ", "fileZ", (1 : ℚ)) ∉ find_similar_files specTreeA specTreeB :=
  (c5_find_similar_characterization specTreeA specTreeB
    (by decide) (by decide)).2 "fileZ" 1
